import Mathlib

/-!
# Verification of the cpp-task-runtime work-stealing scheduler

Shallow embedding of the core of the `runtime` library: the per-worker
`WorkStealingQueue` (src/src/work_stealing_queue.cpp), the `ThreadPool`
submit / worker-loop / wait protocol (src/src/thread_pool.cpp,
src/include/runtime/thread_pool.h), and the future-returning submit
template.  Tasks are `std::function<void()>` values: they are either
empty (default-constructed or moved-from) or hold a callable that, when
invoked, returns normally or raises an exception.
-/

set_option autoImplicit false

namespace Runtime

/-- What a stored callable does when invoked: return normally, throw an
exception deriving from `std::exception`, or throw anything else. -/
inductive Behavior where
  | ret
  | raiseStd
  | raiseOther
  deriving DecidableEq, Repr

/-- A `Task` is a `std::function<void()>` (src/include/runtime/task.h line 10):
either the empty function (default-constructed, or moved-from — libstdc++
leaves a moved-from `std::function` empty), or a callable, tagged with an
identity so that queue transfers can be tracked. -/
inductive Task where
  | empty
  | mk (id : Nat) (b : Behavior)
  deriving DecidableEq, Repr

/-- Exceptions as the two catch clauses of the code distinguish them. -/
inductive Exc where
  | stdExc
  | otherExc
  deriving DecidableEq, Repr

/-- Invoking a `Task` as `task()`: an empty `std::function` throws
`std::bad_function_call` (which derives from `std::exception`); a callable
does whatever its behavior says.  `none` means a normal return. -/
def invoke : Task → Option Exc
  | Task.empty => some Exc.stdExc
  | Task.mk _ Behavior.ret => none
  | Task.mk _ Behavior.raiseStd => some Exc.stdExc
  | Task.mk _ Behavior.raiseOther => some Exc.otherExc

/-!
## WorkStealingQueue (src/src/work_stealing_queue.cpp)

The `std::deque<Task>` is a `List Task` with the *front* at the list head
and the *back* at the list end.  All operations run under the queue's one
lock, so each is a single atomic step on the sequence.
-/

/-- `WorkStealingQueue::push` (lines 18-21): unconditional `push_back`. -/
def push (q : List Task) (t : Task) : List Task :=
  q ++ [t]

/-- Result of `try_push`: the success flag, the queue afterwards, and the
state of the *caller's* task variable after the call.  The definition in
src/src/work_stealing_queue.cpp line 23 takes the task **by value**, so the
caller's argument is moved-from — empty — whether or not the push succeeds. -/
structure TryPushRes where
  success : Bool
  queue : List Task
  callerVar : Task
  deriving DecidableEq, Repr

/-- `WorkStealingQueue::try_push` (lines 23-30): refuse when
`deque_.size() >= max_queue_size`, else `push_back`.  The caller's task
variable is left moved-from (empty) on both paths. -/
def try_push (q : List Task) (t : Task) (max_queue_size : Nat) : TryPushRes :=
  if max_queue_size ≤ q.length then
    { success := false, queue := q, callerVar := Task.empty }
  else
    { success := true, queue := q ++ [t], callerVar := Task.empty }

/-- `WorkStealingQueue::try_pop` (lines 32-41): false if empty, else move
out `deque_.back()` and `pop_back`. -/
def try_pop (q : List Task) : Option Task × List Task :=
  match q.getLast? with
  | none => (none, q)
  | some t => (some t, q.dropLast)

/-- `WorkStealingQueue::try_steal` (lines 43-52): false if empty, else move
out `deque_.front()` and `pop_front`. -/
def try_steal (q : List Task) : Option Task × List Task :=
  match q with
  | [] => (none, [])
  | t :: rest => (some t, rest)

/-- One serialised operation on a bounded per-worker deque.  Insertions go
through `try_push` with the configured capacity; `push` is reserved for the
global queue and does not appear here. -/
inductive DequeOp where
  | tpush (t : Task)
  | tpop
  | tsteal
  deriving DecidableEq, Repr

/-- Apply one operation to a bounded deque with capacity `cap`. -/
def applyOp (cap : Nat) (q : List Task) : DequeOp → List Task
  | DequeOp.tpush t => (try_push q t cap).queue
  | DequeOp.tpop => (try_pop q).2
  | DequeOp.tsteal => (try_steal q).2

/-- Apply a whole history of operations, oldest first. -/
def applyOps (cap : Nat) (ops : List DequeOp) (q : List Task) : List Task :=
  ops.foldl (applyOp cap) q

/-! ### Claims C5 and C6 -/

/-- C5: `try_pop` removes and returns the task at the back (most recently
pushed, LIFO for the owner) and `try_steal` removes and returns the task at
the front (oldest, FIFO for thieves); each returns false and leaves the
queue unchanged exactly when the queue is empty. -/
theorem try_pop_back_try_steal_front (q : List Task) :
    (q = [] → try_pop q = (none, q) ∧ try_steal q = (none, q)) ∧
    (q ≠ [] → (try_pop q).1 ≠ none ∧ (try_steal q).1 ≠ none) ∧
    (∀ (t : Task) (q' : List Task), q = q' ++ [t] → try_pop q = (some t, q')) ∧
    (∀ (t : Task) (q' : List Task), q = t :: q' → try_steal q = (some t, q')) := by
  refine ⟨?_, ?_, ?_, ?_⟩
  · rintro rfl
    constructor <;> rfl
  · intro hq
    constructor
    · simp [try_pop, List.getLast?_eq_getLast_of_ne_nil hq]
    · obtain ⟨t, q', rfl⟩ := List.exists_cons_of_ne_nil hq
      simp [try_steal]
  · rintro t q' rfl
    simp [try_pop]
  · rintro t q' rfl
    simp [try_steal]

/-- Witness for C5 at concrete queues. -/
theorem try_pop_back_try_steal_front_witness :
    try_pop [Task.mk 1 Behavior.ret, Task.mk 2 Behavior.ret]
      = (some (Task.mk 2 Behavior.ret), [Task.mk 1 Behavior.ret]) ∧
    try_steal [Task.mk 1 Behavior.ret, Task.mk 2 Behavior.ret]
      = (some (Task.mk 1 Behavior.ret), [Task.mk 2 Behavior.ret]) ∧
    try_pop ([] : List Task) = (none, []) := by
  refine ⟨?_, ?_, ?_⟩
  · exact (try_pop_back_try_steal_front
      [Task.mk 1 Behavior.ret, Task.mk 2 Behavior.ret]).2.2.1
      (Task.mk 2 Behavior.ret) [Task.mk 1 Behavior.ret] rfl
  · exact (try_pop_back_try_steal_front
      [Task.mk 1 Behavior.ret, Task.mk 2 Behavior.ret]).2.2.2
      (Task.mk 1 Behavior.ret) [Task.mk 2 Behavior.ret] rfl
  · exact ((try_pop_back_try_steal_front ([] : List Task)).1 rfl).1

theorem applyOp_length_le {cap : Nat} {q : List Task} (op : DequeOp)
    (h : q.length ≤ cap) : (applyOp cap q op).length ≤ cap := by
  cases op with
  | tpush t =>
      simp only [applyOp, try_push]
      split
      · exact h
      · rename_i hlt
        simp only [List.length_append, List.length_singleton]
        omega
  | tpop =>
      simp only [applyOp, try_pop]
      cases hq : q.getLast? with
      | none => exact h
      | some t =>
          simp only [List.length_dropLast]
          omega
  | tsteal =>
      cases q with
      | nil => exact h
      | cons t rest =>
          simp only [applyOp, try_steal]
          simp only [List.length_cons] at h
          omega

/-- C6: `size ≤ cap` is an invariant of the bounded per-worker deque —
preserved by every single operation, hence by every history from the empty
deque — because `try_push` appends only when size < cap and
`try_pop`/`try_steal` only shrink; the global queue's unconditional `push`
grows the queue by one regardless of any bound. -/
theorem bounded_deque_invariant (cap : Nat) :
    (∀ (q : List Task) (op : DequeOp), q.length ≤ cap →
      (applyOp cap q op).length ≤ cap) ∧
    (∀ ops : List DequeOp, (applyOps cap ops []).length ≤ cap) ∧
    (∀ (q : List Task) (t : Task), cap ≤ q.length →
      (try_push q t cap).success = false ∧ (try_push q t cap).queue = q) ∧
    (∀ (q : List Task) (t : Task), q.length < cap →
      (try_push q t cap).success = true ∧ (try_push q t cap).queue = q ++ [t]) ∧
    (∀ (q : List Task) (t : Task), (push q t).length = q.length + 1) := by
  refine ⟨fun q op h => applyOp_length_le op h, ?_, ?_, ?_, ?_⟩
  · intro ops
    suffices h : ∀ (q : List Task), q.length ≤ cap →
        (applyOps cap ops q).length ≤ cap from
      h [] (by simp)
    induction ops with
    | nil => intro q hq; simpa [applyOps] using hq
    | cons op rest ih =>
        intro q hq
        have h1 : (applyOp cap q op).length ≤ cap := applyOp_length_le op hq
        simpa [applyOps] using ih _ h1
  · intro q t hcap
    simp [try_push, hcap]
  · intro q t hlen
    constructor <;> simp [try_push, Nat.not_le.mpr hlen]
  · intro q t
    simp [push]

/-- Witness for C6: capacity 2, a full deque rejects, a non-full one
appends, and the unbounded `push` grows past the cap. -/
theorem bounded_deque_invariant_witness :
    (applyOps 2 [DequeOp.tpush (Task.mk 1 Behavior.ret),
      DequeOp.tpush (Task.mk 2 Behavior.ret),
      DequeOp.tpush (Task.mk 3 Behavior.ret)] []).length ≤ 2 ∧
    (try_push [Task.mk 1 Behavior.ret, Task.mk 2 Behavior.ret]
      (Task.mk 3 Behavior.ret) 2).success = false ∧
    (push [Task.mk 1 Behavior.ret, Task.mk 2 Behavior.ret]
      (Task.mk 3 Behavior.ret)).length = 3 := by
  refine ⟨?_, ?_, ?_⟩
  · exact (bounded_deque_invariant 2).2.1
      [DequeOp.tpush (Task.mk 1 Behavior.ret),
       DequeOp.tpush (Task.mk 2 Behavior.ret),
       DequeOp.tpush (Task.mk 3 Behavior.ret)]
  · exact ((bounded_deque_invariant 2).2.2.1
      [Task.mk 1 Behavior.ret, Task.mk 2 Behavior.ret]
      (Task.mk 3 Behavior.ret) (by decide)).1
  · exact (bounded_deque_invariant 2).2.2.2.2
      [Task.mk 1 Behavior.ret, Task.mk 2 Behavior.ret] (Task.mk 3 Behavior.ret)

/-!
## Task execution and the quiescence guard

`ThreadPool::execute_task` (src/src/thread_pool.cpp lines 148-159) invokes
the task under `try { ... } catch (const std::exception&) {} catch (...) {}`:
every failure the task raises is captured and swallowed.
-/

/-- `ThreadPool::execute_task`: run `task()`; both catch clauses swallow, so
no exception ever escapes (`none` = the call to `execute_task` returns). -/
def execute_task (t : Task) : Option Exc :=
  match invoke t with
  | none => none
  | some Exc.stdExc => none
  | some Exc.otherExc => none

theorem execute_task_eq_none (t : Task) : execute_task t = none := by
  cases t with
  | empty => rfl
  | mk id b => cases b <;> rfl

/-- `size_t` arithmetic is modulo `2 ^ 64`. -/
def SIZE_T_MOD : Nat := 2 ^ 64

/-- `counter.fetch_sub(1)` on an atomic `size_t`: returns the previous
value and stores the wrapped decrement. -/
def fetch_sub1 (c : Nat) : Nat × Nat :=
  (c, (c + (SIZE_T_MOD - 1)) % SIZE_T_MOD)

/-- `counter.fetch_add(1)` on an atomic `size_t`: the stored new value
(the returned previous value is discarded by `submit`). -/
def fetch_add1 (c : Nat) : Nat :=
  (c + 1) % SIZE_T_MOD

theorem fetch_sub1_of_fetch_add1 (c : Nat) (h : c < SIZE_T_MOD) :
    (fetch_sub1 (fetch_add1 c)).2 = c := by
  have hm : 0 < SIZE_T_MOD := by norm_num [SIZE_T_MOD]
  simp only [fetch_sub1, fetch_add1, Nat.mod_add_mod]
  have he : c + 1 + (SIZE_T_MOD - 1) = c + SIZE_T_MOD := by omega
  rw [he, Nat.add_mod_right, Nat.mod_eq_of_lt h]

/-- Exit state of the guarded execution block `{ TaskGuard guard(...);
execute_task(task); }` (worker, thread_pool.cpp lines 91-95, 106-109 and
119-122).  `~TaskGuard` (thread_pool.h lines 50-59) runs on every exit path
of the block: it does `prev = counter.fetch_sub(1)` and, when `prev == 1`
(the decrement reached zero), `cv.notify_all()`. -/
structure ExecBlockRes where
  counter : Nat
  notified : Bool
  escaped : Option Exc
  deriving DecidableEq, Repr

/-- The guarded execution block: `execute_task` totalises the task's
failure (both catch clauses swallow it), and the guard's destructor then
decrements and possibly notifies — the same final state the C++ block
reaches whether `task()` returned normally or threw. -/
def exec_block (c : Nat) (t : Task) : ExecBlockRes :=
  let e := execute_task t
  let p := fetch_sub1 c
  { counter := p.2, notified := p.1 == 1, escaped := e }

/-- The predicate `wait()` blocks on (thread_pool.cpp lines 165-167):
`active_tasks_.load() == 0`. -/
def waitPred (c : Nat) : Bool :=
  c == 0

/-! ### Claim C1 -/

/-- C1: for every task a worker has dequeued — whatever invoking it does:
return, raise a `std::exception`, raise anything else, or be the empty
function — the execution block decrements the quiescence counter exactly
once, no failure escapes the block, and the completion condition variable
is notified exactly when the decrement brings the counter to zero, which is
exactly when `wait()`'s wake-up predicate becomes true. -/
theorem exec_block_decrements_once (c : Nat) (t : Task)
    (h1 : 0 < c) (h2 : c < SIZE_T_MOD) :
    (exec_block c t).counter = c - 1 ∧
    (exec_block c t).escaped = none ∧
    ((exec_block c t).notified = true ↔ (exec_block c t).counter = 0) ∧
    (exec_block c t).notified = waitPred (exec_block c t).counter := by
  have hcount : (exec_block c t).counter = c - 1 := by
    simp only [exec_block, fetch_sub1]
    have he : c + (SIZE_T_MOD - 1) = (c - 1) + SIZE_T_MOD := by omega
    rw [he, Nat.add_mod_right, Nat.mod_eq_of_lt (by omega)]
  refine ⟨hcount, ?_, ?_, ?_⟩
  · simp [exec_block, execute_task_eq_none]
  · rw [hcount]
    simp only [exec_block, fetch_sub1, beq_iff_eq]
    omega
  · rw [hcount]
    simp only [exec_block, fetch_sub1, waitPred]
    have : (c == 1) = (c - 1 == 0) := by
      cases hc : c == 1 with
      | true => simp only [beq_iff_eq] at hc; simp [hc]
      | false =>
          simp only [beq_eq_false_iff_ne] at hc
          symm
          simp only [beq_eq_false_iff_ne]
          omega
    rw [this]

/-- Witness for C1: a raising task at counter 1 — decrement to zero, no
escape, notify. -/
theorem exec_block_decrements_once_witness :
    (exec_block 1 (Task.mk 3 Behavior.raiseStd)).counter = 0 ∧
    (exec_block 1 (Task.mk 3 Behavior.raiseStd)).escaped = none ∧
    ((exec_block 1 (Task.mk 3 Behavior.raiseStd)).notified = true ↔
      (exec_block 1 (Task.mk 3 Behavior.raiseStd)).counter = 0) ∧
    (exec_block 1 (Task.mk 3 Behavior.raiseStd)).notified
      = waitPred (exec_block 1 (Task.mk 3 Behavior.raiseStd)).counter :=
  exec_block_decrements_once 1 (Task.mk 3 Behavior.raiseStd)
    (by decide) (by norm_num [SIZE_T_MOD])

/-!
## ThreadPool state, submit, wait

State visible to the submit/quiescence protocol.  The random target draw of
`get_random_thread` is passed in as the argument `idx`, and a possible
exception raised during target selection or enqueueing (e.g. `bad_alloc`)
is injected through `failAt`; `none` is the normal run.
-/

/-- `config::StealPolicy` (src/include/runtime/config.h lines 52-55). -/
inductive StealPolicy where
  | Random
  | RoundRobin
  deriving DecidableEq, Repr

/-- The `ThreadPool` fields the submit / worker / wait protocol reads and
writes (src/include/runtime/thread_pool.h lines 37-71). -/
structure PoolState where
  stop : Bool
  active_tasks : Nat
  queues : List (List Task)
  global_queue : List Task
  steal_attempts : Nat
  max_queue_tasks : Nat
  steal_policy : StealPolicy
  deriving DecidableEq, Repr

/-- Point at which an injected exception interrupts `submit` after the
counter increment: during `get_random_thread`, during the local
`try_push`, or during the global `push`. -/
inductive FailPoint where
  | selectTarget
  | localPush
  | globalPush
  deriving DecidableEq, Repr

/-- Outcome of one `submit` call: `rejected` = the shutdown check threw
before any increment; `thrown` = an injected exception propagated after
the increment (the `SubmitGuard` rolled the counter back);
`accepted` = normal return. -/
inductive SubmitOutcome where
  | rejected (msg : String) (st : PoolState)
  | thrown (st : PoolState)
  | accepted (st : PoolState)
  deriving DecidableEq, Repr

/-- `ThreadPool::submit` (src/src/thread_pool.cpp lines 50-83).  Checks the
shutdown flag, increments `active_tasks_` with an uncommitted
`SubmitGuard`, tries the chosen worker's deque via `try_push` and falls
through to the global queue, committing the guard on each success path.
On overflow, the argument of the global `push` is the caller's task
variable *after* the failed by-value `try_push` — the moved-from empty
function. -/
def submit (st : PoolState) (t : Task) (idx : Nat) (failAt : Option FailPoint) :
    SubmitOutcome :=
  if st.stop then SubmitOutcome.rejected "ThreadPool is shutting down" st
  else
    let c1 := fetch_add1 st.active_tasks
    let rolledBack := (fetch_sub1 c1).2
    match failAt with
    | some FailPoint.selectTarget =>
        SubmitOutcome.thrown { st with active_tasks := rolledBack }
    | some FailPoint.localPush =>
        SubmitOutcome.thrown { st with active_tasks := rolledBack }
    | some FailPoint.globalPush =>
        let r := try_push (st.queues.getD idx []) t st.max_queue_tasks
        if r.success then
          SubmitOutcome.accepted
            { st with active_tasks := c1, queues := st.queues.set idx r.queue }
        else
          SubmitOutcome.thrown { st with active_tasks := rolledBack }
    | none =>
        let r := try_push (st.queues.getD idx []) t st.max_queue_tasks
        if r.success then
          SubmitOutcome.accepted
            { st with active_tasks := c1, queues := st.queues.set idx r.queue }
        else
          SubmitOutcome.accepted
            { st with active_tasks := c1,
                      global_queue := push st.global_queue r.callerVar }

/-- `ThreadPool::wait` (src/src/thread_pool.cpp lines 161-169): block on
the condition variable until `active_tasks_ == 0`, then return; `wait`
only reads, so the state is unchanged.  `some st` = the call returns (with
the pool in state `st`); `none` = the caller is still blocked. -/
def wait (st : PoolState) : Option PoolState :=
  if st.active_tasks = 0 then some st else none

/-! ### Claims C3, C2, C9 -/

/-- C3: `submit` is atomic on error.  With the shutdown flag set it throws
"ThreadPool is shutting down" before touching anything — counter, deques
and global queue are exactly as before, so the task was neither enqueued
nor executed.  And when target selection or an enqueue throws after the
increment, the `SubmitGuard` rolls the counter back, leaving counter and
queues unchanged. -/
theorem submit_atomic_on_error (st : PoolState) (t : Task) (idx : Nat)
    (failAt : Option FailPoint) (hc : st.active_tasks < SIZE_T_MOD) :
    (st.stop = true →
      submit st t idx failAt
        = SubmitOutcome.rejected "ThreadPool is shutting down" st) ∧
    (∀ st', submit st t idx failAt = SubmitOutcome.thrown st' →
      st'.active_tasks = st.active_tasks ∧ st'.queues = st.queues ∧
      st'.global_queue = st.global_queue) := by
  constructor
  · intro hstop
    simp [submit, hstop]
  · intro st' h
    have hrb := fetch_sub1_of_fetch_add1 st.active_tasks hc
    by_cases hstop : st.stop
    · simp [submit, hstop] at h
    · rcases failAt with _ | fp
      · simp only [submit, hstop, Bool.false_eq_true, if_false] at h
        split at h <;> simp at h
      · cases fp with
        | selectTarget =>
            simp only [submit, hstop, Bool.false_eq_true, if_false,
              SubmitOutcome.thrown.injEq] at h
            subst h
            exact ⟨hrb, rfl, rfl⟩
        | localPush =>
            simp only [submit, hstop, Bool.false_eq_true, if_false,
              SubmitOutcome.thrown.injEq] at h
            subst h
            exact ⟨hrb, rfl, rfl⟩
        | globalPush =>
            simp only [submit, hstop, Bool.false_eq_true, if_false] at h
            split at h
            · simp at h
            · simp only [SubmitOutcome.thrown.injEq] at h
              subst h
              exact ⟨hrb, rfl, rfl⟩

/-- A stopped pool with five in-flight tasks, for concrete evaluation. -/
def stoppedPool : PoolState where
  stop := true
  active_tasks := 5
  queues := [[]]
  global_queue := []
  steal_attempts := 4
  max_queue_tasks := 8
  steal_policy := StealPolicy.Random

/-- The same pool before shutdown. -/
def openPool : PoolState where
  stop := false
  active_tasks := 5
  queues := [[]]
  global_queue := []
  steal_attempts := 4
  max_queue_tasks := 8
  steal_policy := StealPolicy.Random

/-- Witness for C3: a stopped pool rejects, and an injected `bad_alloc`
during the local push leaves the counter at its old value. -/
theorem submit_atomic_on_error_witness :
    (submit stoppedPool (Task.mk 1 Behavior.ret) 0 none
      = SubmitOutcome.rejected "ThreadPool is shutting down" stoppedPool) ∧
    (∀ st', submit openPool (Task.mk 1 Behavior.ret) 0
        (some FailPoint.localPush) = SubmitOutcome.thrown st' →
      st'.active_tasks = openPool.active_tasks ∧
      st'.queues = openPool.queues ∧
      st'.global_queue = openPool.global_queue) := by
  constructor
  · exact (submit_atomic_on_error stoppedPool (Task.mk 1 Behavior.ret) 0 none
      (by norm_num [stoppedPool, SIZE_T_MOD])).1 rfl
  · exact (submit_atomic_on_error openPool (Task.mk 1 Behavior.ret) 0
      (some FailPoint.localPush) (by norm_num [openPool, SIZE_T_MOD])).2

/-- A two-submission scenario: capacity 1, worker 0's deque already full. -/
def fullPool : PoolState where
  stop := false
  active_tasks := 0
  queues := [[Task.mk 1 Behavior.ret]]
  global_queue := []
  steal_attempts := 4
  max_queue_tasks := 1
  steal_policy := StealPolicy.Random

/-- What `submit fullPool (Task.mk 7 Behavior.ret) 0 none` actually
produces: the counter went up, the local deque was refused, and the global
queue received the moved-from empty function instead of task 7. -/
def fullPoolAfter : PoolState where
  stop := false
  active_tasks := 1
  queues := [[Task.mk 1 Behavior.ret]]
  global_queue := [Task.empty]
  steal_attempts := 4
  max_queue_tasks := 1
  steal_policy := StealPolicy.Random

/-- C2 fails on the code: with capacity 1 and the chosen worker's deque
already full, `try_push` returns false but — taking its `Task` parameter
by value (work_stealing_queue.cpp line 23) — has already consumed the
caller's task, and `submit` then pushes the moved-from *empty* function,
not the submitted task, onto the global overflow queue.  The submitted
task `Task.mk 7 Behavior.ret` is lost. -/
theorem overflow_replaces_task_with_empty :
    (try_push [Task.mk 1 Behavior.ret] (Task.mk 7 Behavior.ret) 1).success
      = false ∧
    (try_push [Task.mk 1 Behavior.ret] (Task.mk 7 Behavior.ret) 1).callerVar
      = Task.empty ∧
    submit fullPool (Task.mk 7 Behavior.ret) 0 none
      = SubmitOutcome.accepted fullPoolAfter ∧
    Task.empty ≠ Task.mk 7 Behavior.ret := by
  refine ⟨rfl, rfl, ?_, by decide⟩
  rfl

/-- C9: `wait()` is idempotent.  A `wait` that has returned did so at
counter zero and changed nothing, and a second `wait` with no submissions
in between returns immediately on the same, unchanged state. -/
theorem wait_idempotent (st st' : PoolState) (h : wait st = some st') :
    st' = st ∧ st'.active_tasks = 0 ∧ wait st' = some st' := by
  by_cases hz : st.active_tasks = 0
  · simp only [wait, hz, if_true, reduceIte, Option.some.injEq] at h
    subst h
    exact ⟨rfl, hz, by simp [wait, hz]⟩
  · simp [wait, hz] at h

/-- A quiescent pool. -/
def idlePool : PoolState where
  stop := false
  active_tasks := 0
  queues := [[]]
  global_queue := []
  steal_attempts := 4
  max_queue_tasks := 8
  steal_policy := StealPolicy.Random

/-- Witness for C9 on a concrete quiescent pool. -/
theorem wait_idempotent_witness :
    idlePool = idlePool ∧ idlePool.active_tasks = 0 ∧
    wait idlePool = some idlePool :=
  wait_idempotent idlePool idlePool rfl

/-!
## The worker loop (ThreadPool::worker, src/src/thread_pool.cpp lines 85-132)

src/src/worker.cpp holds an older draft of `ThreadPool::worker` that tries
the global queue *before* peer stealing; it does not compile against the
current header (it indexes `work_queues_` as if it held queues by value,
while thread_pool.h line 66 stores `unique_ptr`s) and would duplicate the
definition in thread_pool.cpp, so the live worker loop embedded here is
the one in thread_pool.cpp.
-/

/-- `ThreadPool::get_random_thread` (lines 135-139): a draw of the
thread-local generator mapped uniformly onto `[0, thread_count)`; the raw
generator output is supplied as `draw`. -/
def get_random_thread (draw : Nat) (thread_count : Nat) : Nat :=
  draw % thread_count

/-- `ThreadPool::get_next_victim` (lines 142-145): `Random` policy draws a
random thread, `RoundRobin` returns `(i + attempt) % thread_count`. -/
def get_next_victim (policy : StealPolicy) (draw : Nat) (thread_count : Nat)
    (i attempt : Nat) : Nat :=
  match policy with
  | StealPolicy.Random => get_random_thread draw thread_count
  | StealPolicy.RoundRobin => (i + attempt) % thread_count

/-- The victim the worker at `idx` tries on attempt `a`, given the random
draws `draws` of its thread-local generator. -/
def victimOf (st : PoolState) (idx : Nat) (draws : Nat → Nat) (a : Nat) :
    Nat :=
  get_next_victim st.steal_policy (draws a) st.queues.length idx a

/-- The queue probes and checks one pass of the worker loop performs, in
program order. -/
inductive Action where
  | popLocal
  | stealFrom (v : Nat)
  | stealGlobal
  | exitCheck
  | idleSleep
  deriving DecidableEq, Repr

def isStealAct : Action → Bool
  | Action.stealFrom _ => true
  | _ => false

/-- How one pass of the worker loop ends: a task was executed (the `while`
restarts), the exit check fired (`break`), or the worker slept. -/
inductive PassResult where
  | executed
  | exited
  | slept
  deriving DecidableEq, Repr

/-- Execute a dequeued task under the `TaskGuard` and record the new pool
state, whether the completion cv was notified, and any escaped failure. -/
def runGuardedTask (st : PoolState) (t : Task) :
    PoolState × Bool × Option Exc :=
  let r := exec_block st.active_tasks t
  ({ st with active_tasks := r.counter }, r.notified, r.escaped)

/-- The `for (attempt = 1; attempt <= steal_attempts_; ++attempt)` sweep
(lines 102-112): pick the victim, `try_steal` its deque, `break` on the
first success.  Returns the attempts performed and, on success, the stolen
task with the updated queue vector. -/
def stealLoop (qs : List (List Task)) (v : Nat → Nat) (a : Nat) :
    Nat → List Action × Option (Task × List (List Task))
  | 0 => ([], none)
  | fuel + 1 =>
      match try_steal (qs.getD (v a) []) with
      | (some t, q') => ([Action.stealFrom (v a)], some (t, qs.set (v a) q'))
      | (none, _) =>
          let r := stealLoop qs v (a + 1) fuel
          (Action.stealFrom (v a) :: r.1, r.2)

/-- Everything the worker observes. -/
structure PassOut where
  actions : List Action
  result : PassResult
  state : PoolState
  notified : Bool
  escaped : Option Exc
  deriving Repr

/-- The part of a pass after the local `try_pop` came back empty: the
steal sweep, then the global `try_steal`, then the exit check and the
idle sleep (lines 98-130). -/
def sweepPhase (st : PoolState) (idx : Nat) (draws : Nat → Nat) : PassOut :=
  let s := stealLoop st.queues (victimOf st idx draws) 1 st.steal_attempts
  match s.2 with
  | some (t, qs') =>
      let r := runGuardedTask { st with queues := qs' } t
      { actions := s.1, result := PassResult.executed,
        state := r.1, notified := r.2.1, escaped := r.2.2 }
  | none =>
      match try_steal st.global_queue with
      | (some t, g') =>
          let r := runGuardedTask { st with global_queue := g' } t
          { actions := s.1 ++ [Action.stealGlobal],
            result := PassResult.executed,
            state := r.1, notified := r.2.1, escaped := r.2.2 }
      | (none, _) =>
          if st.stop = true ∧ st.active_tasks = 0 then
            { actions := s.1 ++ [Action.stealGlobal, Action.exitCheck],
              result := PassResult.exited, state := st,
              notified := false, escaped := none }
          else
            { actions := s.1
                ++ [Action.stealGlobal, Action.exitCheck, Action.idleSleep],
              result := PassResult.slept, state := st,
              notified := false, escaped := none }

/-- One pass of `ThreadPool::worker` for the worker at `idx`: local
`try_pop` first (line 90), the rest only when it yields nothing. -/
def workerPass (st : PoolState) (idx : Nat) (draws : Nat → Nat) : PassOut :=
  match try_pop (st.queues.getD idx []) with
  | (some t, q') =>
      let r := runGuardedTask { st with queues := st.queues.set idx q' } t
      { actions := [Action.popLocal], result := PassResult.executed,
        state := r.1, notified := r.2.1, escaped := r.2.2 }
  | (none, _) =>
      let p := sweepPhase st idx draws
      { p with actions := Action.popLocal :: p.actions }

/-! ### Helper lemmas about the queue probes and the steal sweep -/

theorem try_pop_nil : try_pop [] = (none, []) := rfl

theorem try_pop_ne_nil {q : List Task} (h : q ≠ []) :
    try_pop q = (some (q.getLast h), q.dropLast) := by
  simp [try_pop, List.getLast?_eq_getLast_of_ne_nil h]

theorem try_steal_nil : try_steal [] = (none, []) := rfl

theorem try_steal_cons (t : Task) (q : List Task) :
    try_steal (t :: q) = (some t, q) := rfl

theorem stealLoop_mem (qs : List (List Task)) (v : Nat → Nat) :
    ∀ (fuel a : Nat) (x : Action), x ∈ (stealLoop qs v a fuel).1 →
      ∃ j, j < fuel ∧ x = Action.stealFrom (v (a + j)) := by
  intro fuel
  induction fuel with
  | zero => intro a x hx; simp [stealLoop] at hx
  | succ f ih =>
      intro a x hx
      cases hq : qs.getD (v a) [] with
      | nil =>
          simp only [stealLoop, hq, try_steal] at hx
          rcases List.mem_cons.mp hx with hx | hx
          · exact ⟨0, Nat.succ_pos f, by simpa using hx⟩
          · obtain ⟨j, hj, hxe⟩ := ih (a + 1) x hx
            refine ⟨j + 1, by omega, ?_⟩
            have hadd : a + 1 + j = a + (j + 1) := by omega
            rw [← hadd]
            exact hxe
      | cons t rest =>
          simp only [stealLoop, hq, try_steal] at hx
          rcases List.mem_singleton.mp hx with rfl
          exact ⟨0, Nat.succ_pos f, by simp⟩

theorem stealLoop_length_le (qs : List (List Task)) (v : Nat → Nat) :
    ∀ (fuel a : Nat), (stealLoop qs v a fuel).1.length ≤ fuel := by
  intro fuel
  induction fuel with
  | zero => intro a; simp [stealLoop]
  | succ f ih =>
      intro a
      cases hq : qs.getD (v a) [] with
      | nil =>
          simp only [stealLoop, hq, try_steal, List.length_cons]
          exact Nat.succ_le_succ (ih (a + 1))
      | cons t rest =>
          simp only [stealLoop, hq, try_steal, List.length_singleton]
          omega

theorem stealLoop_none_iff (qs : List (List Task)) (v : Nat → Nat) :
    ∀ (fuel a : Nat),
      ((stealLoop qs v a fuel).2 = none ↔
        ∀ j, j < fuel → qs.getD (v (a + j)) [] = []) := by
  intro fuel
  induction fuel with
  | zero => intro a; simp [stealLoop]
  | succ f ih =>
      intro a
      cases hq : qs.getD (v a) [] with
      | nil =>
          simp only [stealLoop, hq, try_steal]
          rw [ih (a + 1)]
          constructor
          · intro hall j hj
            cases j with
            | zero => simpa using hq
            | succ k =>
                have hadd : a + (k + 1) = a + 1 + k := by omega
                rw [hadd]
                exact hall k (by omega)
          · intro hall j hj
            have hadd : a + 1 + j = a + (j + 1) := by omega
            rw [hadd]
            exact hall (j + 1) (by omega)
      | cons t rest =>
          simp only [stealLoop, hq, try_steal]
          constructor
          · intro h; cases h
          · intro hall
            have h0 := hall 0 (Nat.succ_pos f)
            rw [Nat.add_zero] at h0
            rw [h0] at hq
            cases hq

/-- The canonical post-sweep section of the trace when every steal attempt
has failed. -/
def passTail (st : PoolState) : List Action :=
  if st.global_queue ≠ [] then [Action.stealGlobal]
  else if st.stop = true ∧ st.active_tasks = 0 then
    [Action.stealGlobal, Action.exitCheck]
  else [Action.stealGlobal, Action.exitCheck, Action.idleSleep]

theorem sweepPhase_actions_eq (st : PoolState) (idx : Nat)
    (draws : Nat → Nat) :
    (sweepPhase st idx draws).actions
      = (stealLoop st.queues (victimOf st idx draws) 1 st.steal_attempts).1
        ++ (if (stealLoop st.queues (victimOf st idx draws) 1
              st.steal_attempts).2 = none then passTail st else []) := by
  cases hs : (stealLoop st.queues (victimOf st idx draws) 1
      st.steal_attempts).2 with
  | some p =>
      obtain ⟨t, qs'⟩ := p
      simp [sweepPhase, hs]
  | none =>
      cases hg : st.global_queue with
      | cons t g' =>
          simp [sweepPhase, hs, hg, try_steal, passTail]
      | nil =>
          by_cases hstop : st.stop = true ∧ st.active_tasks = 0
          · simp [sweepPhase, hs, hg, try_steal, passTail, hstop]
          · simp [sweepPhase, hs, hg, try_steal, passTail, hstop]

theorem passTail_mem (st : PoolState) :
    (∀ x ∈ passTail st, isStealAct x = false) ∧
    Action.stealGlobal ∈ passTail st ∧
    (Action.exitCheck ∈ passTail st ↔ st.global_queue = []) ∧
    (Action.idleSleep ∈ passTail st ↔
      st.global_queue = [] ∧ ¬(st.stop = true ∧ st.active_tasks = 0)) := by
  by_cases hg : st.global_queue = []
  · by_cases hstop : st.stop = true ∧ st.active_tasks = 0
    · constructor
      · intro x hx
        simp [passTail, hg, hstop] at hx
        rcases hx with rfl | rfl <;> rfl
      · simp [passTail, hg, hstop]
    · constructor
      · intro x hx
        simp [passTail, hg, hstop] at hx
        rcases hx with rfl | rfl | rfl <;> rfl
      · simp [passTail, hg, hstop]
  · constructor
    · intro x hx
      simp [passTail, hg] at hx
      rcases hx with rfl
      rfl
    · simp [passTail, hg]

theorem stealLoop_only_steals {qs : List (List Task)} {v : Nat → Nat}
    {fuel a : Nat} {x : Action} (hx : x ∈ (stealLoop qs v a fuel).1) :
    isStealAct x = true := by
  obtain ⟨j, hj, rfl⟩ := stealLoop_mem qs v fuel a x hx
  rfl

theorem countP_steal_zero {l : List Action}
    (h : ∀ x ∈ l, isStealAct x = false) : l.countP isStealAct = 0 := by
  induction l with
  | nil => rfl
  | cons y ys ih =>
      rw [List.countP_cons, h y (List.mem_cons_self y ys)]
      simp [ih fun x hx => h x (List.mem_cons_of_mem y hx)]

/-! ### Claim C4 -/

/-- C4: in every pass the worker consults its own deque first; steal
attempts happen only when the local pop yielded nothing, number at most
`steal_attempts_`, and target victims produced by `get_next_victim`; the
global overflow queue is probed exactly when the local deque was empty and
every one of the `steal_attempts_` attempts found its victim's deque
empty; the exit check runs exactly when the global probe also failed, and
the idle sleep follows exactly when the exit check did not fire. -/
theorem worker_pass_ordering (st : PoolState) (idx : Nat)
    (draws : Nat → Nat) :
    (workerPass st idx draws).actions.head? = some Action.popLocal ∧
    (st.queues.getD idx [] ≠ [] →
      (workerPass st idx draws).actions = [Action.popLocal] ∧
      (workerPass st idx draws).result = PassResult.executed) ∧
    (∀ v, Action.stealFrom v ∈ (workerPass st idx draws).actions →
      st.queues.getD idx [] = [] ∧
      ∃ a, 1 ≤ a ∧ a ≤ st.steal_attempts ∧ v = victimOf st idx draws a) ∧
    ((workerPass st idx draws).actions.countP isStealAct
      ≤ st.steal_attempts) ∧
    (Action.stealGlobal ∈ (workerPass st idx draws).actions ↔
      (st.queues.getD idx [] = [] ∧ ∀ a, 1 ≤ a → a ≤ st.steal_attempts →
        st.queues.getD (victimOf st idx draws a) [] = [])) ∧
    (Action.exitCheck ∈ (workerPass st idx draws).actions ↔
      (Action.stealGlobal ∈ (workerPass st idx draws).actions ∧
        st.global_queue = [])) ∧
    (Action.idleSleep ∈ (workerPass st idx draws).actions ↔
      (Action.exitCheck ∈ (workerPass st idx draws).actions ∧
        ¬(st.stop = true ∧ st.active_tasks = 0))) := by
  by_cases hloc : st.queues.getD idx [] = []
  · have hw : (workerPass st idx draws).actions
        = Action.popLocal :: (sweepPhase st idx draws).actions := by
      unfold workerPass
      rw [hloc, try_pop_nil]
    have hact := sweepPhase_actions_eq st idx draws
    obtain ⟨hpt1, hpt2, hpt3, hpt4⟩ := passTail_mem st
    have hnone := stealLoop_none_iff st.queues (victimOf st idx draws)
      st.steal_attempts 1
    have hshift : ((stealLoop st.queues (victimOf st idx draws) 1
        st.steal_attempts).2 = none ↔
        ∀ a, 1 ≤ a → a ≤ st.steal_attempts →
          st.queues.getD (victimOf st idx draws a) [] = []) := by
      rw [hnone]
      constructor
      · intro hall a ha1 ha2
        have hj := hall (a - 1) (by omega)
        have he : 1 + (a - 1) = a := by omega
        rwa [he] at hj
      · intro hall j hj
        exact hall (1 + j) (by omega) (by omega)
    have hglobmem : (Action.stealGlobal ∈ (workerPass st idx draws).actions
        ↔ (stealLoop st.queues (victimOf st idx draws) 1
            st.steal_attempts).2 = none) := by
      rw [hw, hact]
      constructor
      · intro hmem
        rcases List.mem_cons.mp hmem with h | h
        · simp at h
        · rcases List.mem_append.mp h with h | h
          · have := stealLoop_only_steals h
            simp [isStealAct] at this
          · by_cases hn : (stealLoop st.queues (victimOf st idx draws) 1
                st.steal_attempts).2 = none
            · exact hn
            · rw [if_neg hn] at h
              simp at h
      · intro hn
        refine List.mem_cons_of_mem _ (List.mem_append.mpr (Or.inr ?_))
        rw [if_pos hn]
        exact hpt2
    have hexitmem : (Action.exitCheck ∈ (workerPass st idx draws).actions
        ↔ ((stealLoop st.queues (victimOf st idx draws) 1
            st.steal_attempts).2 = none ∧ st.global_queue = [])) := by
      rw [hw, hact]
      constructor
      · intro hmem
        rcases List.mem_cons.mp hmem with h | h
        · simp at h
        · rcases List.mem_append.mp h with h | h
          · have := stealLoop_only_steals h
            simp [isStealAct] at this
          · by_cases hn : (stealLoop st.queues (victimOf st idx draws) 1
                st.steal_attempts).2 = none
            · rw [if_pos hn] at h
              exact ⟨hn, hpt3.mp h⟩
            · rw [if_neg hn] at h
              simp at h
      · rintro ⟨hn, hg⟩
        refine List.mem_cons_of_mem _ (List.mem_append.mpr (Or.inr ?_))
        rw [if_pos hn]
        exact hpt3.mpr hg
    have hsleepmem : (Action.idleSleep ∈ (workerPass st idx draws).actions
        ↔ ((stealLoop st.queues (victimOf st idx draws) 1
            st.steal_attempts).2 = none ∧ st.global_queue = [] ∧
            ¬(st.stop = true ∧ st.active_tasks = 0))) := by
      rw [hw, hact]
      constructor
      · intro hmem
        rcases List.mem_cons.mp hmem with h | h
        · simp at h
        · rcases List.mem_append.mp h with h | h
          · have := stealLoop_only_steals h
            simp [isStealAct] at this
          · by_cases hn : (stealLoop st.queues (victimOf st idx draws) 1
                st.steal_attempts).2 = none
            · rw [if_pos hn] at h
              obtain ⟨hg, hs⟩ := hpt4.mp h
              exact ⟨hn, hg, hs⟩
            · rw [if_neg hn] at h
              simp at h
      · rintro ⟨hn, hg, hs⟩
        refine List.mem_cons_of_mem _ (List.mem_append.mpr (Or.inr ?_))
        rw [if_pos hn]
        exact hpt4.mpr ⟨hg, hs⟩
    refine ⟨?_, ?_, ?_, ?_, ?_, ?_, ?_⟩
    · rw [hw]; rfl
    · intro h; exact absurd hloc h
    · intro v hv
      refine ⟨hloc, ?_⟩
      rw [hw, hact] at hv
      rcases List.mem_cons.mp hv with h | h
      · simp at h
      · rcases List.mem_append.mp h with h | h
        · obtain ⟨j, hj, hx⟩ := stealLoop_mem _ _ _ _ _ h
          rw [Action.stealFrom.injEq] at hx
          exact ⟨1 + j, by omega, by omega, hx⟩
        · by_cases hn : (stealLoop st.queues (victimOf st idx draws) 1
              st.steal_attempts).2 = none
          · rw [if_pos hn] at h
            have := hpt1 _ h
            simp [isStealAct] at this
          · rw [if_neg hn] at h
            simp at h
    · rw [hw, hact, List.countP_cons, List.countP_append]
      have h1 : (stealLoop st.queues (victimOf st idx draws) 1
          st.steal_attempts).1.countP isStealAct ≤ st.steal_attempts :=
        le_trans (List.countP_le_length isStealAct)
          (stealLoop_length_le _ _ _ _)
      have h2 : (if (stealLoop st.queues (victimOf st idx draws) 1
          st.steal_attempts).2 = none then passTail st
          else ([] : List Action)).countP isStealAct = 0 := by
        split
        · exact countP_steal_zero hpt1
        · rfl
      rw [h2]
      have h3 : (if isStealAct Action.popLocal = true then 1 else 0) = 0 := rfl
      rw [h3]
      omega
    · rw [hglobmem, hshift]
      constructor
      · intro h; exact ⟨hloc, h⟩
      · rintro ⟨-, h⟩; exact h
    · rw [hexitmem, hglobmem]
    · rw [hsleepmem, hexitmem]
      constructor
      · rintro ⟨hn, hg, hs⟩; exact ⟨⟨hn, hg⟩, hs⟩
      · rintro ⟨⟨hn, hg⟩, hs⟩; exact ⟨hn, hg, hs⟩
  · have hact2 : (workerPass st idx draws).actions = [Action.popLocal] := by
      unfold workerPass
      rw [try_pop_ne_nil hloc]
    have hres2 : (workerPass st idx draws).result = PassResult.executed := by
      unfold workerPass
      rw [try_pop_ne_nil hloc]
    refine ⟨?_, ?_, ?_, ?_, ?_, ?_, ?_⟩
    · rw [hact2]; rfl
    · intro h; exact ⟨hact2, hres2⟩
    · intro v hv
      rw [hact2] at hv
      simp at hv
    · rw [hact2]
      simp [List.countP_cons, isStealAct]
    · rw [hact2]
      constructor
      · intro h; simp at h
      · rintro ⟨h, -⟩; exact absurd h hloc
    · rw [hact2]
      constructor
      · intro h; simp at h
      · rintro ⟨h, -⟩; simp at h
    · rw [hact2]
      constructor
      · intro h; simp at h
      · rintro ⟨h, -⟩; simp at h

/-- Witness for C4: on `fullPool` (one worker whose deque holds a task)
the pass is local-only; on `idlePool` (everything empty, one worker, not
stopping) the pass probes the global queue after the sweep and sleeps. -/
theorem worker_pass_ordering_witness :
    ((workerPass fullPool 0 fun _ => 0).actions = [Action.popLocal] ∧
      (workerPass fullPool 0 fun _ => 0).result = PassResult.executed) ∧
    (Action.stealGlobal ∈ (workerPass idlePool 0 fun _ => 0).actions ↔
      (idlePool.queues.getD 0 [] = [] ∧
        ∀ a, 1 ≤ a → a ≤ idlePool.steal_attempts →
          idlePool.queues.getD (victimOf idlePool 0 (fun _ => 0) a) []
            = [])) ∧
    (Action.idleSleep ∈ (workerPass idlePool 0 fun _ => 0).actions ↔
      (Action.exitCheck ∈ (workerPass idlePool 0 fun _ => 0).actions ∧
        ¬(idlePool.stop = true ∧ idlePool.active_tasks = 0))) :=
  ⟨(worker_pass_ordering fullPool 0 fun _ => 0).2.1 (by decide),
   (worker_pass_ordering idlePool 0 fun _ => 0).2.2.2.2.1,
   (worker_pass_ordering idlePool 0 fun _ => 0).2.2.2.2.2.2⟩

/-! ### Claim C10 -/

theorem getD_set_self {α : Type} {l : List α} {i : Nat} {x d : α}
    (h : i < l.length) : (l.set i x).getD i d = x := by
  simp [List.getD_eq_getElem?_getD, List.getElem?_set_self, h]

/-- C10: submitting a default-constructed (empty) `Task` is accepted like
any other submission; the worker that pops it gets the
`std::bad_function_call` failure, which `execute_task` catches and
swallows; the `TaskGuard` still decrements the counter; the pass ends as
an ordinary executed pass (the worker keeps looping, the pool state is
back to where it started), and `wait()` returns. -/
theorem empty_task_submission_harmless (st : PoolState) (idx : Nat)
    (draws : Nat → Nat) (hstop : st.stop = false)
    (hq : st.queues.getD idx [] = []) (hroom : 0 < st.max_queue_tasks)
    (hc : st.active_tasks = 0) (hidx : idx < st.queues.length) :
    ∃ st1,
      st1 = { st with active_tasks := 1,
                      queues := st.queues.set idx [Task.empty] } ∧
      submit st Task.empty idx none = SubmitOutcome.accepted st1 ∧
      invoke Task.empty = some Exc.stdExc ∧
      execute_task Task.empty = none ∧
      (workerPass st1 idx draws).result = PassResult.executed ∧
      (workerPass st1 idx draws).escaped = none ∧
      (workerPass st1 idx draws).notified = true ∧
      (workerPass st1 idx draws).state
        = { st with active_tasks := 0, queues := st.queues.set idx [] } ∧
      wait (workerPass st1 idx draws).state
        = some (workerPass st1 idx draws).state := by
  refine ⟨{ st with active_tasks := 1,
                    queues := st.queues.set idx [Task.empty] },
          rfl, ?_, rfl, rfl, ?_, ?_, ?_, ?_, ?_⟩
  case _ =>
    have hpush : try_push (st.queues.getD idx []) Task.empty
        st.max_queue_tasks
        = { success := true, queue := [Task.empty],
            callerVar := Task.empty } := by
      rw [hq]
      unfold try_push
      rw [if_neg (by simpa using hroom.not_le)]
      rfl
    have hfa : fetch_add1 st.active_tasks = 1 := by
      rw [hc]
      norm_num [fetch_add1, SIZE_T_MOD]
    simp only [submit, hstop, Bool.false_eq_true, if_false, hpush, hfa,
      if_true]
  all_goals
    have hq1 : ({ st with active_tasks := 1,
                          queues := st.queues.set idx [Task.empty] } :
        PoolState).queues.getD idx [] = [Task.empty] :=
      getD_set_self (by simpa using hidx)
    have hpop : try_pop (({ st with active_tasks := 1,
                                    queues := st.queues.set idx
                                      [Task.empty] } :
        PoolState).queues.getD idx []) = (some Task.empty, []) := by
      rw [hq1]
      rfl
    have hrun : runGuardedTask
        { st with active_tasks := 1,
                  queues := (st.queues.set idx [Task.empty]).set idx [] }
        Task.empty
        = ({ st with active_tasks := 0, queues := st.queues.set idx [] },
           true, none) := by
      unfold runGuardedTask exec_block fetch_sub1
      norm_num [execute_task, invoke, SIZE_T_MOD, List.set_set]
    have hw : workerPass { st with active_tasks := 1,
                                   queues := st.queues.set idx
                                     [Task.empty] } idx draws
        = { actions := [Action.popLocal], result := PassResult.executed,
            state := { st with active_tasks := 0,
                               queues := st.queues.set idx [] },
            notified := true, escaped := none } := by
      unfold workerPass
      rw [hpop]
      simp only [hrun]
    rw [hw]
  all_goals rfl

/-- Witness for C10: the concrete quiescent single-worker pool. -/
theorem empty_task_submission_harmless_witness :
    ∃ st1,
      st1 = { idlePool with active_tasks := 1,
                            queues := idlePool.queues.set 0 [Task.empty] } ∧
      submit idlePool Task.empty 0 none = SubmitOutcome.accepted st1 ∧
      invoke Task.empty = some Exc.stdExc ∧
      execute_task Task.empty = none ∧
      (workerPass st1 0 fun _ => 0).result = PassResult.executed ∧
      (workerPass st1 0 fun _ => 0).escaped = none ∧
      (workerPass st1 0 fun _ => 0).notified = true ∧
      (workerPass st1 0 fun _ => 0).state
        = { idlePool with active_tasks := 0,
                          queues := idlePool.queues.set 0 [] } ∧
      wait (workerPass st1 0 fun _ => 0).state
        = some (workerPass st1 0 fun _ => 0).state :=
  empty_task_submission_harmless idlePool 0 (fun _ => 0) rfl rfl
    (by norm_num [idlePool]) rfl (by norm_num [idlePool])

/-!
## Statistics (src/include/runtime/stats.h)

The repository declares the counters and its examples and benchmarks read
`pool.stats()`, but the `ThreadPool` under src/ neither holds a
`RuntimeStats` member nor increments any counter, so the instrumented
steal sweep is modelled from the spec (§4.4 step 2).
-/

/-- `RuntimeStats` (src/include/runtime/stats.h lines 9-15): the five
monotonic counters. -/
structure RuntimeStats where
  tasks_submitted : Nat
  tasks_executed : Nat
  tasks_stolen : Nat
  steal_attempts : Nat
  failed_steals : Nat
  deriving DecidableEq, Repr

/-- Modelled from the spec: the statistics update of one steal attempt
(missing from `ThreadPool::worker` in src/) — "increment `steal_attempts`,
call `try_steal(v)`.  On success: execute the task, increment
`tasks_stolen` and `tasks_executed` ... On failure: increment
`failed_steals`." -/
def stealAttemptStats (s : RuntimeStats) (success : Bool) : RuntimeStats :=
  let s1 := { s with steal_attempts := s.steal_attempts + 1 }
  if success then
    { s1 with tasks_stolen := s1.tasks_stolen + 1,
              tasks_executed := s1.tasks_executed + 1 }
  else
    { s1 with failed_steals := s1.failed_steals + 1 }

/-- Modelled from the spec: the statistics effect of a whole steal sweep
(§4.4 step 2); `outcomes` lists the `try_steal` results of the successive
attempts, and the sweep ends at the first success because the pass
restarts. -/
def statSweep (s : RuntimeStats) : List Bool → RuntimeStats
  | [] => s
  | success :: rest =>
      if success then stealAttemptStats s true
      else statSweep (stealAttemptStats s false) rest

/-- Number of attempts the sweep performs: everything up to and including
the first success. -/
def attemptsMade : List Bool → Nat
  | [] => 0
  | success :: rest => if success then 1 else 1 + attemptsMade rest

/-- Whether the sweep stole a task. -/
def sweepSucceeded : List Bool → Bool
  | [] => false
  | success :: rest => success || sweepSucceeded rest

/-- The statistics invariant of the claim. -/
def statsInv (s : RuntimeStats) : Prop :=
  s.tasks_stolen ≤ s.steal_attempts ∧
  s.failed_steals = s.steal_attempts - s.tasks_stolen

theorem one_le_attemptsMade {l : List Bool}
    (h : sweepSucceeded l = true) : 1 ≤ attemptsMade l := by
  cases l with
  | nil => cases h
  | cons b rest =>
      cases b with
      | true => simp [attemptsMade]
      | false =>
          simp only [attemptsMade, Bool.false_eq_true, if_false, reduceIte]
          omega

/-! ### Claim C7 -/

/-- C7: along the steal sweep `steal_attempts` grows by one per attempt,
`tasks_stolen` and `tasks_executed` by one on the (at most one) successful
steal, and `failed_steals` by one per failed attempt; consequently
`tasks_stolen ≤ steal_attempts` and
`failed_steals = steal_attempts − tasks_stolen` are preserved by every
attempt and by every whole sweep. -/
theorem steal_sweep_stats (s : RuntimeStats) (outcomes : List Bool)
    (hinv : statsInv s) :
    (∀ b, statsInv (stealAttemptStats s b)) ∧
    statsInv (statSweep s outcomes) ∧
    (statSweep s outcomes).steal_attempts
      = s.steal_attempts + attemptsMade outcomes ∧
    (statSweep s outcomes).tasks_stolen
      = s.tasks_stolen + (if sweepSucceeded outcomes then 1 else 0) ∧
    (statSweep s outcomes).tasks_executed
      = s.tasks_executed + (if sweepSucceeded outcomes then 1 else 0) ∧
    (statSweep s outcomes).failed_steals
      = s.failed_steals + (attemptsMade outcomes
          - (if sweepSucceeded outcomes then 1 else 0)) := by
  have hstep : ∀ (u : RuntimeStats) (b : Bool), statsInv u →
      statsInv (stealAttemptStats u b) := by
    rintro u b ⟨h1, h2⟩
    cases b with
    | true =>
        refine ⟨?_, ?_⟩ <;> simp [stealAttemptStats] <;> omega
    | false =>
        refine ⟨?_, ?_⟩ <;> simp [stealAttemptStats] <;> omega
  refine ⟨fun b => hstep s b hinv, ?_⟩
  induction outcomes generalizing s with
  | nil => simp [statSweep, attemptsMade, sweepSucceeded, hinv]
  | cons b rest ih =>
      cases b with
      | true =>
          refine ⟨hstep s true hinv, ?_, ?_, ?_, ?_⟩ <;>
            simp [statSweep, attemptsMade, sweepSucceeded,
              stealAttemptStats]
      | false =>
          obtain ⟨hi, ha, hs2, he, hf⟩ := ih (stealAttemptStats s false)
            (hstep s false hinv)
          have hstepeq : statSweep s (false :: rest)
              = statSweep (stealAttemptStats s false) rest := rfl
          have hf1 : (stealAttemptStats s false).steal_attempts
              = s.steal_attempts + 1 := rfl
          have hf2 : (stealAttemptStats s false).tasks_stolen
              = s.tasks_stolen := rfl
          have hf3 : (stealAttemptStats s false).tasks_executed
              = s.tasks_executed := rfl
          have hf4 : (stealAttemptStats s false).failed_steals
              = s.failed_steals + 1 := rfl
          have hatt : attemptsMade (false :: rest)
              = 1 + attemptsMade rest := by
            simp [attemptsMade]
          have hsw : sweepSucceeded (false :: rest) = sweepSucceeded rest := by
            simp [sweepSucceeded]
          refine ⟨hi, ?_, ?_, ?_, ?_⟩
          · rw [hstepeq, ha, hf1, hatt]
            omega
          · rw [hstepeq, hs2, hf2, hsw]
          · rw [hstepeq, he, hf3, hsw]
          · rw [hstepeq, hf, hf4, hatt, hsw]
            cases hsucc : sweepSucceeded rest with
            | true =>
                have hpos := one_le_attemptsMade hsucc
                simp only [if_true, reduceIte]
                omega
            | false =>
                simp only [Bool.false_eq_true, if_false, reduceIte]
                omega

/-- Witness for C7: two failures then a success, from zeroed counters. -/
theorem steal_sweep_stats_witness :
    statsInv (statSweep ⟨0, 0, 0, 0, 0⟩ [false, false, true]) ∧
    (statSweep ⟨0, 0, 0, 0, 0⟩ [false, false, true]).steal_attempts = 3 ∧
    (statSweep ⟨0, 0, 0, 0, 0⟩ [false, false, true]).tasks_stolen = 1 ∧
    (statSweep ⟨0, 0, 0, 0, 0⟩ [false, false, true]).failed_steals = 2 := by
  obtain ⟨-, hi, ha, hs, -, hf⟩ :=
    steal_sweep_stats ⟨0, 0, 0, 0, 0⟩ [false, false, true] ⟨by decide, rfl⟩
  refine ⟨hi, ?_, ?_, ?_⟩
  · rw [ha]; rfl
  · rw [hs]; rfl
  · rw [hf]; rfl

/-!
## The future-returning submit template (thread_pool.h lines 78-95)

`submit<F, Args...>` packages the callable and its bound arguments into a
`std::packaged_task` held in a `shared_ptr` (lines 85-87), takes its
`std::future` (line 89), and then calls
`submit([task]() { (*task)(); });` (line 92).  That unqualified call
undergoes overload resolution against both `submit` overloads, and the
wrapper lambda is an exact match for the template's forwarding reference
`F&&`, while `submit(Task)` would need a user-defined conversion to
`std::function<void()>`; the call therefore re-enters the template
overload itself instead of reaching the plain `submit(Task)` — the
recursive draft the spec's §9 open-questions list flags.  Each level
packages the previous level's wrapper and self-calls again, so no
instantiation of the overload ever returns a future, enqueues a task, or
fills a result slot.
-/

/-- What a callable produced: a returned value or a raised failure. -/
inductive CallResult (β : Type) where
  | value (b : β)
  | raised (e : Exc)
  deriving DecidableEq, Repr

/-- The shared state behind the `packaged_task` / `future` pair created
at thread_pool.h lines 85-89: `none` until some invocation of the
packaged wrapper stores a result. -/
def FutureSlot (β : Type) : Type :=
  Option (CallResult β)

/-- `future::get()`: blocks until the shared state is filled (`none` =
still blocked), then returns the stored value or rethrows the stored
failure. -/
def futureGet {β : Type} : FutureSlot β → Option (Except Exc β)
  | none => none
  | some (CallResult.value b) => some (Except.ok b)
  | some (CallResult.raised e) => some (Except.error e)

/-- The template `ThreadPool::submit` overload as the source defines it.
Its body packages `f` and the bound arguments and then performs the
`submit(lambda)` call of line 92, which overload resolution binds to the
template itself (see the section comment), so the body's value is the
value of the self-call.  `fuel` makes the recursion depth explicit:
`none` means the call has not returned within that depth — the caller
would hold a future and the pool a task only on a `some`, which the C8
theorem shows never appears at any depth.  The self-call's callable is
really the freshly built wrapper of the previous level; since no level
ever uses its packaged result (that would require the inner call to
return first), the embedding keeps `f` and the pool state, which no
level changes. -/
def submit_template_code {α β : Type} (st : PoolState) (idx : Nat)
    (f : α → CallResult β) (a : α) :
    Nat → Option (SubmitOutcome × FutureSlot β)
  | 0 => none
  | fuel + 1 => submit_template_code st idx f a fuel

/-! ### Claim C8 -/

/-- C8 fails on the code: the future-returning submit overload does not
deliver `f` applied to its arguments, because the `submit` call in its
body (thread_pool.h line 92) resolves to the template overload itself —
the wrapper lambda matches `F&&` exactly while `submit(Task)` needs a
user-defined conversion — so the overload recurses instead of delegating
to the plain `submit`.  Evaluated at the claim's own input
(`(a,b) → a+b` bound to 10 and 20, on a quiescent pool): the body's
value is the self-call's value at every depth, no depth makes the call
return, so the caller never receives a future, nothing reaches the plain
`submit(Task)`, and the only slot that ever exists is the unfilled one,
on which `get()` cannot yield 30. -/
theorem submit_template_recursion_never_delivers :
    (∀ fuel : Nat,
      submit_template_code idlePool 0
          (fun p : Nat × Nat => CallResult.value (p.1 + p.2)) (10, 20)
          (fuel + 1)
        = submit_template_code idlePool 0
            (fun p : Nat × Nat => CallResult.value (p.1 + p.2)) (10, 20)
            fuel) ∧
    (∀ fuel : Nat,
      submit_template_code idlePool 0
          (fun p : Nat × Nat => CallResult.value (p.1 + p.2)) (10, 20) fuel
        = none) ∧
    futureGet (none : FutureSlot Nat) = none := by
  refine ⟨fun fuel => rfl, ?_, rfl⟩
  intro fuel
  induction fuel with
  | zero => rfl
  | succ f ih => exact ih

end Runtime
